import Mathlib

/-!
Verification of the extraction-and-reconciliation engine of the
meta-ads-scraper repository (src/scraper.ts), via a shallow embedding.

Modelling conventions:
* JSON values are the inductive `Json` below; a missing property / JS
  `undefined` is `Option.none`, JS `null` is `Json.null`.
* JSON numbers are modelled as `Int`: no claim depends on fractional or
  non-finite numbers, which `JSON.parse` of the intercepted payloads can
  only produce in cases outside every claim's scope.
* The wall clock (`Date.now()` / `new Date().toISOString()`) is modelled
  as an explicit function `τ : Nat → Nat` from a call counter to a
  millisecond reading; `isoOf` stands for ISO-8601 rendering (any
  injective rendering is equivalent for the claims).
* The persistence collaborator (design §6) is modelled as a total
  key/value store, matching its stated contract (`save`/`load` reflect
  the most recently saved value); file-system mechanics are external to
  the core under verification.
-/

inductive Json where
  | null
  | bool (b : Bool)
  | num (n : Int)
  | str (s : String)
  | arr (elems : List Json)
  | obj (fields : List (String × Json))
deriving Repr

mutual
/-- Structural equality of JSON values (used to build `DecidableEq`). -/
def Json.beq : Json → Json → Bool
  | Json.null, Json.null => true
  | Json.bool a, Json.bool b => a == b
  | Json.num a, Json.num b => a == b
  | Json.str a, Json.str b => a == b
  | Json.arr xs, Json.arr ys => Json.beqList xs ys
  | Json.obj xs, Json.obj ys => Json.beqFields xs ys
  | _, _ => false

def Json.beqList : List Json → List Json → Bool
  | [], [] => true
  | x :: xs, y :: ys => Json.beq x y && Json.beqList xs ys
  | _, _ => false

def Json.beqFields : List (String × Json) → List (String × Json) → Bool
  | [], [] => true
  | (k1, v1) :: xs, (k2, v2) :: ys => k1 == k2 && Json.beq v1 v2 && Json.beqFields xs ys
  | _, _ => false
end

mutual
theorem Json.beq_refl : ∀ (a : Json), Json.beq a a = true
  | Json.null => rfl
  | Json.bool a => by simp [Json.beq]
  | Json.num a => by simp [Json.beq]
  | Json.str a => by simp [Json.beq]
  | Json.arr xs => by simp [Json.beq, Json.beqList_refl xs]
  | Json.obj xs => by simp [Json.beq, Json.beqFields_refl xs]

theorem Json.beqList_refl : ∀ (xs : List Json), Json.beqList xs xs = true
  | [] => rfl
  | x :: xs => by simp [Json.beqList, Json.beq_refl x, Json.beqList_refl xs]

theorem Json.beqFields_refl : ∀ (xs : List (String × Json)), Json.beqFields xs xs = true
  | [] => rfl
  | (k, v) :: xs => by simp [Json.beqFields, Json.beq_refl v, Json.beqFields_refl xs]
end

mutual
theorem Json.eq_of_beq : ∀ (a b : Json), Json.beq a b = true → a = b
  | Json.null, b, h => by cases b <;> simp_all [Json.beq]
  | Json.bool a, b, h => by cases b <;> simp_all [Json.beq]
  | Json.num a, b, h => by cases b <;> simp_all [Json.beq]
  | Json.str a, b, h => by cases b <;> simp_all [Json.beq]
  | Json.arr xs, Json.arr ys, h => by
      simp only [Json.beq] at h
      exact congrArg Json.arr (Json.eqList_of_beq xs ys h)
  | Json.arr xs, Json.null, h => by simp [Json.beq] at h
  | Json.arr xs, Json.bool _, h => by simp [Json.beq] at h
  | Json.arr xs, Json.num _, h => by simp [Json.beq] at h
  | Json.arr xs, Json.str _, h => by simp [Json.beq] at h
  | Json.arr xs, Json.obj _, h => by simp [Json.beq] at h
  | Json.obj xs, Json.obj ys, h => by
      simp only [Json.beq] at h
      exact congrArg Json.obj (Json.eqFields_of_beq xs ys h)
  | Json.obj xs, Json.null, h => by simp [Json.beq] at h
  | Json.obj xs, Json.bool _, h => by simp [Json.beq] at h
  | Json.obj xs, Json.num _, h => by simp [Json.beq] at h
  | Json.obj xs, Json.str _, h => by simp [Json.beq] at h
  | Json.obj xs, Json.arr _, h => by simp [Json.beq] at h

theorem Json.eqList_of_beq : ∀ (xs ys : List Json), Json.beqList xs ys = true → xs = ys
  | [], [], _ => rfl
  | [], _ :: _, h => by simp [Json.beqList] at h
  | _ :: _, [], h => by simp [Json.beqList] at h
  | x :: xs, y :: ys, h => by
      simp only [Json.beqList, Bool.and_eq_true] at h
      rw [Json.eq_of_beq x y h.1, Json.eqList_of_beq xs ys h.2]

theorem Json.eqFields_of_beq : ∀ (xs ys : List (String × Json)), Json.beqFields xs ys = true → xs = ys
  | [], [], _ => rfl
  | [], _ :: _, h => by simp [Json.beqFields] at h
  | _ :: _, [], h => by simp [Json.beqFields] at h
  | (k1, v1) :: xs, (k2, v2) :: ys, h => by
      simp only [Json.beqFields, Bool.and_eq_true] at h
      obtain ⟨⟨hk, hv⟩, ht⟩ := h
      rw [Json.eq_of_beq v1 v2 hv, Json.eqFields_of_beq xs ys ht]
      simp_all
end

instance : DecidableEq Json := fun a b =>
  if h : Json.beq a b = true then isTrue (Json.eq_of_beq a b h)
  else isFalse (fun he => h (he ▸ Json.beq_refl a))

/-- JS truthiness of a JSON value. -/
def Json.truthy : Json → Bool
  | Json.null => false
  | Json.bool b => b
  | Json.num n => n != 0
  | Json.str s => s != ""
  | Json.arr _ => true
  | Json.obj _ => true

/-- JS truthiness of a possibly-`undefined` value. -/
def truthyO : Option Json → Bool
  | none => false
  | some v => v.truthy

/-- Property access `v.k` on a value known not to be null/undefined:
objects look the key up, every other value yields `undefined`. -/
def Json.getProp : Json → String → Option Json
  | Json.obj fs, k => (fs.find? (fun p => p.1 == k)).map Prod.snd
  | _, _ => none

/-- Optional-chaining access `v?.k`: `undefined`/`null` short-circuit. -/
def optChain : Option Json → String → Option Json
  | none, _ => none
  | some Json.null, _ => none
  | some v, k => v.getProp k

/-- JS `a || b` where the left side may be `undefined`. -/
def jsOr (a : Option Json) (b : Json) : Json :=
  match a with
  | some v => if v.truthy then v else b
  | none => b

/-- JS `a || b` where both sides may be `undefined`. -/
def jsOrO (a b : Option Json) : Option Json :=
  if truthyO a then a else b

/-- `for...of` iterability: arrays iterate over elements, strings over
their characters; any other (truthy) value raises a TypeError. -/
def jsIter : Json → Option (List Json)
  | Json.arr xs => some xs
  | Json.str s => some (s.toList.map (fun c => Json.str c.toString))
  | _ => none

/-- JS object-spread `{...v}` as a field list: objects contribute their
fields; strings and arrays contribute index-keyed entries; primitives
contribute nothing. -/
def jsSpread : Json → List (String × Json)
  | Json.obj fs => fs
  | Json.str s => (s.toList.enum.map (fun p => (toString p.1, Json.str p.2.toString)))
  | Json.arr xs => (xs.enum.map (fun p => (toString p.1, p.2)))
  | _ => []

/-- Overriding a key in an object-literal field list: an existing key is
replaced in place, a new key is appended (JS object-literal semantics of
`{...spread, snapshot: v}`). -/
def setKey (fs : List (String × Json)) (k : String) (v : Json) : List (String × Json) :=
  if fs.any (fun p => p.1 == k) then fs.map (fun p => if p.1 == k then (k, v) else p)
  else fs ++ [(k, v)]

/-- Stands for `new Date(t).toISOString()`: an injective rendering of the
millisecond clock reading. -/
def isoOf (t : Nat) : String := toString t

/-- The canonical Ad Record exactly as built by `extractAdData`
(src/scraper.ts lines 86–99); field values keep the dynamic typing of the
source (`id`/`page_id`/`is_active` are whatever JSON value the fallback
chains produce). -/
structure AdData where
  id : Json
  page_id : Json
  is_active : Json
  start_date : Option Json
  end_date : Option Json
  snapshot_url : Option Json
  creative_bodies : List Json
  fetched_at : String
  raw_data : Json
deriving Repr, DecidableEq

/-- Page Metadata as written by `savePageMetadata`. -/
structure PageMetadata where
  page_id : Json
  last_synced : String
  total_ads : Nat
deriving Repr, DecidableEq

/-- One collated result (src/scraper.ts lines 82–104): builds the record
with the fallback chains and applies the validity check of line 102.
The clock counter `k` advances once per `Date.now()` / `new Date()` call,
in source evaluation order: the (lazily reached) id synthesis of line 87,
the `fetched_at` stamp of line 94, then the check of line 102. -/
def processResult (τ : Nat → Nat) (k : Nat) (adResult : Json) : Option AdData × Nat :=
  let snapshot := jsOr (adResult.getProp "snapshot") (Json.obj [])
  let idc1 := adResult.getProp "ad_archive_id"
  let idc2 := adResult.getProp "id"
  let idPair : Json × Nat :=
    if truthyO idc1 then ((idc1.getD Json.null), k)
    else if truthyO idc2 then ((idc2.getD Json.null), k)
    else (Json.str ("unknown_" ++ toString (τ k)), k + 1)
  let idVal := idPair.1
  let k1 := idPair.2
  let bodyText := optChain (snapshot.getProp "body") "text"
  let ad : AdData :=
    { id := idVal
      page_id := jsOr (adResult.getProp "page_id")
        (jsOr (snapshot.getProp "page_id") (Json.str "unknown_page"))
      is_active := (adResult.getProp "is_active").getD (Json.bool true)
      start_date := jsOrO (adResult.getProp "start_date") (adResult.getProp "delivery_start_time")
      end_date := jsOrO (adResult.getProp "end_date") (adResult.getProp "delivery_stop_time")
      snapshot_url := adResult.getProp "snapshot_url"
      creative_bodies := if truthyO bodyText then [bodyText.getD Json.null] else []
      fetched_at := isoOf (τ k1)
      raw_data := Json.obj (setKey (jsSpread adResult) "snapshot" snapshot) }
  let k2 := k1 + 1
  if ad.id.truthy then
    if ad.id = Json.str ("unknown_" ++ toString (τ k2)) then (none, k2 + 1)
    else (some ad, k2 + 1)
  else (none, k2)

/-- The `for (const adResult of collatedResults)` loop of one node. -/
def processResults (τ : Nat → Nat) : Nat → List Json → List AdData → List AdData × Nat
  | k, [], acc => (acc, k)
  | k, r :: rest, acc =>
    if r.truthy then
      let step := processResult τ k r
      processResults τ step.2 rest (acc ++ step.1.toList)
    else processResults τ k rest acc

/-- The `for (const edge of edges)` loop. The third component records
whether a TypeError was raised (a truthy, non-iterable `collated_results`)
and caught by the surrounding try/catch — in that case the records pushed
so far are returned and the remaining edges are not processed. -/
def processEdges (τ : Nat → Nat) : Nat → List Json → List AdData → List AdData × Nat × Bool
  | k, [], acc => (acc, k, false)
  | k, e :: rest, acc =>
    let node := optChain (some e) "node"
    if truthyO node then
      let collated := jsOr ((node.getD Json.null).getProp "collated_results") (Json.arr [])
      match jsIter collated with
      | some rs =>
        let step := processResults τ k rs acc
        processEdges τ step.2 rest step.1
      | none => (acc, k, true)
    else processEdges τ k rest acc

/-- `extractAdData` (src/scraper.ts lines 57–112), including the clock
counter after the call and the caught-exception flag. -/
def extractFull (τ : Nat → Nat) (k : Nat) (response : Json) : List AdData × Nat × Bool :=
  let data := optChain (some response) "data"
  if truthyO data then
    match optChain (optChain (optChain data "ad_library_main") "search_results_connection") "edges" with
    | some (Json.arr es) => processEdges τ k es []
    | _ => ([], k, false)
  else ([], k, false)

/-- The list of records `extractAdData` returns. -/
def extractAdData (τ : Nat → Nat) (k : Nat) (response : Json) : List AdData :=
  (extractFull τ k response).1

/-- Association-list update with JS-`Map.set` semantics: an existing key
keeps its position and gets the new value, a new key is appended. -/
def alSet {κ : Type} [DecidableEq κ] {α : Type} (m : List (κ × α)) (k : κ) (v : α) :
    List (κ × α) :=
  if m.any (fun p => p.1 == k) then m.map (fun p => if p.1 == k then (k, v) else p)
  else m ++ [(k, v)]

/-- Association-list lookup (JS `Map.get` / the persistence `load`). -/
def alGet {κ : Type} [DecidableEq κ] {α : Type} (m : List (κ × α)) (k : κ) : Option α :=
  (m.find? (fun p => p.1 == k)).map Prod.snd

/-- The persisted ad store, keyed by `(page_id, id)` exactly as `saveAd`
keys its files (one file per ad under a directory per page). -/
abbrev Store := List ((Json × Json) × AdData)

/-- `!max || capturedAds.size < max` (src/scraper.ts line 184): note a
cap of 0 is falsy in JS, so it imposes no limit. -/
def capOpen (max : Option Nat) (size : Nat) : Bool :=
  match max with
  | none => true
  | some n => if n = 0 then true else size < n

/-- `max && capturedAds.size >= max` (src/scraper.ts line 189). -/
def capBreak (max : Option Nat) (size : Nat) : Bool :=
  match max with
  | none => false
  | some n => if n = 0 then false else decide (n ≤ size)

/-- Session map plus persisted store during a full-capture run. -/
structure CaptureState where
  session : List (Json × AdData)
  store : Store
deriving Repr, DecidableEq

/-- The `for (const ad of ads)` loop of `initialSync` (src/scraper.ts
lines 183–194): guarded insert into the session map, `saveAd`, and the
cap-reached break. -/
def captureAds (max : Option Nat) : CaptureState → List AdData → CaptureState
  | st, [] => st
  | st, ad :: rest =>
    if capOpen max st.session.length then
      let st' : CaptureState :=
        { session := alSet st.session ad.id ad
          store := alSet st.store (ad.page_id, ad.id) ad }
      if capBreak max st'.session.length then st'
      else captureAds max st' rest
    else captureAds max st rest

/-- Session, persisted store and clock counter threaded through a
full-capture run. -/
structure RunState where
  session : List (Json × AdData)
  store : Store
  k : Nat
deriving Repr, DecidableEq

/-- One intercepted-response event of `initialSync` (lines 178–198):
extract, then run the guarded capture loop. -/
def handleResponse (τ : Nat → Nat) (max : Option Nat) (st : RunState) (payload : Json) :
    RunState :=
  let ex := extractFull τ st.k payload
  let cst := captureAds max ⟨st.session, st.store⟩ ex.1
  ⟨cst.session, cst.store, ex.2.1⟩

/-- First-occurrence deduplication, the iteration order of
`new Set(array)` (src/scraper.ts line 274). -/
def firstDedupGo (seen : List Json) : List Json → List Json
  | [] => []
  | x :: xs => if x ∈ seen then firstDedupGo seen xs else x :: firstDedupGo (x :: seen) xs

/-- The per-page metadata loop of `initialSync` (lines 274–282); each
iteration stamps `last_synced` with a fresh clock reading. -/
def pageMetasGo (τ : Nat → Nat) (vals : List AdData) : Nat → List Json → List PageMetadata
  | _, [] => []
  | k, pid :: rest =>
    ⟨pid, isoOf (τ k), (vals.filter (fun ad => ad.page_id == pid)).length⟩
      :: pageMetasGo τ vals (k + 1) rest

/-- A full-capture run over a sequence of intercepted payloads against a
prior persisted store: the engine part of `initialSync` (the browser and
scrolling plumbing only decides which payloads arrive). -/
def initialSyncRun (τ : Nat → Nat) (max : Option Nat) (payloads : List Json)
    (prior : Store) : RunState × List PageMetadata :=
  let st := payloads.foldl (handleResponse τ max) ⟨[], prior, 0⟩
  let vals := st.session.map Prod.snd
  (st, pageMetasGo τ vals st.k (firstDedupGo [] (vals.map (fun ad => ad.page_id))))

/-- JS strict equality `===` between an ad field loaded back from a JSON
file and a freshly extracted one: primitives compare by value; arrays and
objects compare by reference, and the two sides never alias across the
parse boundary, so they are never strictly equal. -/
def strictEqJ : Json → Json → Bool
  | Json.null, Json.null => true
  | Json.bool a, Json.bool b => a == b
  | Json.num a, Json.num b => a == b
  | Json.str a, Json.str b => a == b
  | _, _ => false

/-- Strict equality where either side may be `undefined` (an absent
optional field). -/
def strictEqO : Option Json → Option Json → Bool
  | none, none => true
  | some a, some b => strictEqJ a b
  | _, _ => false

/-- The change test of `incrementalSync` (src/scraper.ts lines 367–371):
new when no persisted record exists, otherwise changed when `is_active`,
`end_date`, `start_date` or `creative_bodies` differ
(`creative_bodies` via `JSON.stringify`, modelled as structural list
equality, which `JSON.stringify` decides for the values reachable here). -/
def isChanged (existing : Option AdData) (ad : AdData) : Bool :=
  match existing with
  | none => true
  | some e =>
    !(strictEqJ e.is_active ad.is_active) ||
    !(strictEqO e.end_date ad.end_date) ||
    !(strictEqO e.start_date ad.start_date) ||
    !(e.creative_bodies == ad.creative_bodies)

/-- Store, `updatedAds` map and clock counter threaded through an
incremental run. -/
structure IncState where
  store : Store
  updated : List (Json × AdData)
  k : Nat
deriving Repr, DecidableEq

/-- One extracted ad in `incrementalSync`'s response handler (lines
362–377): filter to the target page, load the persisted record, and
persist exactly when `isChanged`. -/
def incHandleAd (pageId : String) (st : IncState) (ad : AdData) : IncState :=
  if strictEqJ ad.page_id (Json.str pageId) then
    let existing := alGet st.store (Json.str pageId, ad.id)
    if isChanged existing ad then
      { store := alSet st.store (ad.page_id, ad.id) ad
        updated := alSet st.updated ad.id ad
        k := st.k }
    else st
  else st

/-- One intercepted-response event of `incrementalSync`. -/
def incHandleResponse (τ : Nat → Nat) (pageId : String) (st : IncState) (payload : Json) :
    IncState :=
  let ex := extractFull τ st.k payload
  ex.1.foldl (incHandleAd pageId) ⟨st.store, st.updated, ex.2.1⟩

/-- An incremental run over a sequence of intercepted payloads: the
engine part of `incrementalSync` (lines 301–405), ending with the
metadata write of lines 398–403:
`total_ads = (metadata?.total_ads || 0) + updatedAds.size`. -/
def incrementalSyncRun (τ : Nat → Nat) (pageId : String) (payloads : List Json)
    (priorStore : Store) (priorMeta : Option PageMetadata) : IncState × PageMetadata :=
  let st := payloads.foldl (incHandleResponse τ pageId) ⟨priorStore, [], 0⟩
  (st, ⟨Json.str pageId, isoOf (τ st.k),
        (match priorMeta with | some m => m.total_ads | none => 0) + st.updated.length⟩)

/-- The anchor-path lookup
`response?.data?.ad_library_main?.search_results_connection?.edges`. -/
def edgesOf (j : Json) : Option Json :=
  optChain (optChain (optChain (optChain (some j) "data") "ad_library_main")
    "search_results_connection") "edges"

/-- Whether a possibly-absent value is an array (`Array.isArray`). -/
def isArrO : Option Json → Bool
  | some (Json.arr _) => true
  | _ => false

/-- A search edge whose traversal short-circuits without producing
records and without an error: its node is absent/null/falsy, or its
`collated_results` is absent, null or otherwise falsy. -/
def emptyBranch (e : Json) : Bool :=
  match optChain (some e) "node" with
  | none => true
  | some n => if n.truthy then !(truthyO (n.getProp "collated_results")) else true

/-- A payload shaped like the production GraphQL responses:
`data.ad_library_main.search_results_connection.edges = es`. -/
def anchorPayload (es : List Json) : Json :=
  Json.obj [("data", Json.obj [("ad_library_main", Json.obj
    [("search_results_connection", Json.obj [("edges", Json.arr es)])])])]

/-- A frozen clock. -/
def clk0 : Nat → Nat := fun _ => 0

/-- Another frozen clock, one millisecond later. -/
def clk1 : Nat → Nat := fun _ => 1

/-- A clock that ticks between consecutive calls. -/
def clkTick : Nat → Nat := fun k => 100 + k

/-- A well-formed collated result. -/
def goodResult : Json := Json.obj [("ad_archive_id", Json.str "A"), ("page_id", Json.str "P")]

/-- A well-formed search edge holding `goodResult`. -/
def goodEdge : Json := Json.obj [("node", Json.obj [("collated_results", Json.arr [goodResult])])]

/-- A payload holding exactly `goodEdge`. -/
def payloadGood : Json := anchorPayload [goodEdge]

/-- An edge whose `collated_results` is a truthy non-sequence. -/
def badEdge : Json := Json.obj [("node", Json.obj [("collated_results", Json.num 42)])]

/-- C1. For every payload whose anchor path
`data.ad_library_main.search_results_connection.edges` does not resolve
to an array — which covers `null`, `{}`, `{data: null}` and every
missing-anchor variant at any depth — `extractAdData` returns the empty
record list, no internal exception is raised, and the clock is untouched. -/
theorem extract_missing_anchor_empty (τ : Nat → Nat) (k : Nat) (j : Json)
    (h : isArrO (edgesOf j) = false) :
    extractFull τ k j = ([], k, false) := by
  unfold extractFull
  unfold edgesOf at h
  by_cases hd : truthyO (optChain (some j) "data")
  · simp only [hd, if_true]
    split
    · rename_i es heq
      rw [heq] at h
      simp [isArrO] at h
    · rfl
  · simp [hd]

/-- Witness for C1 at the concrete malformed input `{data: null}`. -/
theorem extract_missing_anchor_empty_witness :
    isArrO (edgesOf (Json.obj [("data", Json.null)])) = false ∧
    extractFull clk0 0 (Json.obj [("data", Json.null)]) = ([], 0, false) :=
  ⟨rfl, extract_missing_anchor_empty clk0 0 (Json.obj [("data", Json.null)]) rfl⟩

/-- A collated result carrying no identity field at all. -/
def noIdResult : Json := Json.obj [("page_id", Json.str "P")]

/-- A payload delivering exactly `noIdResult`. -/
def noIdPayload : Json :=
  anchorPayload [Json.obj [("node", Json.obj [("collated_results", Json.arr [noIdResult])])]]

/-- C3. The guard of line 102 compares the synthesized id
`unknown_${Date.now()}` of line 87 against a *second* `Date.now()` call:
when the millisecond clock ticks between the two calls (here 100 at
synthesis, 102 at the check) the synthesized-identity record passes the
check and is returned — and hence added to the session and persisted —
contradicting the claim; only when the clock stands still between the two
calls is the record rejected as intended. -/
theorem synthesized_id_slips_through :
    (extractAdData clkTick 0 noIdPayload).map AdData.id = [Json.str "unknown_100"] ∧
    extractAdData (fun _ => 100) 0 noIdPayload = [] :=
  ⟨rfl, rfl⟩

/-- The persisted record an incremental run finds on disk for ad "A" of
page "P". -/
def prevAdA : AdData :=
  { id := Json.str "A", page_id := Json.str "P", is_active := Json.bool true,
    start_date := none, end_date := none, snapshot_url := none,
    creative_bodies := [], fetched_at := "0", raw_data := Json.obj [] }

/-- A prior store holding exactly `prevAdA`. -/
def priorStoreA : Store := [((Json.str "P", Json.str "A"), prevAdA)]

/-- A payload re-delivering ad "A" with `is_active` flipped to false:
a changed — not new — record. -/
def changedPayloadA : Json :=
  anchorPayload [Json.obj [("node", Json.obj [("collated_results", Json.arr
    [Json.obj [("ad_archive_id", Json.str "A"), ("page_id", Json.str "P"),
      ("is_active", Json.bool false)]])])]]

/-- C6. An incremental run over a store that already holds ad "A"
(so zero newly-observed records) and metadata `total_ads = 1`, fed one
payload in which ad "A" merely changed (`is_active` flipped): the code
writes `total_ads = 2`, incrementing by the size of the updated map —
which counts merely-changed records — while the claim requires
incrementing only by the number of newly observed records, i.e. writing
`total_ads = 1`. -/
theorem inc_total_ads_counts_changed :
    (incrementalSyncRun clk0 "P" [changedPayloadA] priorStoreA
        (some ⟨Json.str "P", "t0", 1⟩)).2.total_ads = 2 ∧
    alGet priorStoreA (Json.str "P", Json.str "A") = some prevAdA ∧
    ((incrementalSyncRun clk0 "P" [changedPayloadA] priorStoreA
        (some ⟨Json.str "P", "t0", 1⟩)).1.updated.map Prod.fst) = [Json.str "A"] :=
  ⟨rfl, rfl, rfl⟩

/-- Prepending an unrelated key to an object leaves property lookups for
other keys unchanged. -/
theorem getProp_cons_ne (k0 : String) (w : Json) (fs : List (String × Json)) (key : String)
    (hne : (k0 == key) = false) :
    (Json.obj ((k0, w) :: fs)).getProp key = (Json.obj fs).getProp key := by
  simp only [Json.getProp, List.find?]
  rw [hne]

/-- C10. Every record `processResult` accepts has `creative_bodies`
holding at most one element, derived exactly from the nested
`snapshot.body.text` (empty when that field is absent or falsy); and a
`creative_bodies` array sitting directly on the raw object has no
influence on the accepted records' `creative_bodies`. -/
theorem creative_bodies_from_snapshot (τ : Nat → Nat) (k : Nat) (raw : Json)
    (ad : AdData) (k' : Nat) (h : processResult τ k raw = (some ad, k')) :
    ad.creative_bodies.length ≤ 1 ∧
    ad.creative_bodies =
      (match optChain ((jsOr (raw.getProp "snapshot") (Json.obj [])).getProp "body") "text" with
       | some v => if v.truthy then [v] else []
       | none => []) ∧
    (∀ (fs : List (String × Json)) (w : Json),
      ((processResult τ k (Json.obj (("creative_bodies", w) :: fs))).1.map
        (fun a => a.creative_bodies)) =
      ((processResult τ k (Json.obj fs)).1.map (fun a => a.creative_bodies))) := by
  have hmain : ad.creative_bodies =
      (match optChain ((jsOr (raw.getProp "snapshot") (Json.obj [])).getProp "body") "text" with
       | some v => if v.truthy then [v] else []
       | none => []) := by
    dsimp only [processResult] at h
    repeat' split at h
    all_goals simp only [Prod.mk.injEq] at h
    all_goals obtain ⟨h1, -⟩ := h
    all_goals simp only [Option.some.injEq, reduceCtorEq] at h1
    all_goals subst h1
    all_goals cases hbt : optChain ((jsOr (raw.getProp "snapshot") (Json.obj [])).getProp "body") "text" <;>
      simp_all [truthyO]
  refine ⟨?_, hmain, ?_⟩
  · rw [hmain]
    split
    · split <;> simp
    · simp
  · intro fs w
    dsimp only [processResult]
    rw [getProp_cons_ne "creative_bodies" w fs "snapshot" (by decide),
        getProp_cons_ne "creative_bodies" w fs "ad_archive_id" (by decide),
        getProp_cons_ne "creative_bodies" w fs "id" (by decide),
        getProp_cons_ne "creative_bodies" w fs "page_id" (by decide),
        getProp_cons_ne "creative_bodies" w fs "is_active" (by decide),
        getProp_cons_ne "creative_bodies" w fs "start_date" (by decide),
        getProp_cons_ne "creative_bodies" w fs "delivery_start_time" (by decide),
        getProp_cons_ne "creative_bodies" w fs "end_date" (by decide),
        getProp_cons_ne "creative_bodies" w fs "delivery_stop_time" (by decide),
        getProp_cons_ne "creative_bodies" w fs "snapshot_url" (by decide)]
    repeat' split
    all_goals rfl

/-- A raw collated result with identity and nested snapshot body text. -/
def rawC10 : Json := Json.obj [("ad_archive_id", Json.str "A"),
  ("snapshot", Json.obj [("body", Json.obj [("text", Json.str "Hello")])])]

/-- The record `processResult` builds from `rawC10` under `clk0`. -/
def adC10 : AdData :=
  { id := Json.str "A", page_id := Json.str "unknown_page", is_active := Json.bool true,
    start_date := none, end_date := none, snapshot_url := none,
    creative_bodies := [Json.str "Hello"], fetched_at := "0",
    raw_data := Json.obj [("ad_archive_id", Json.str "A"),
      ("snapshot", Json.obj [("body", Json.obj [("text", Json.str "Hello")])])] }

/-- Witness for C10 at a concrete raw object. -/
theorem creative_bodies_from_snapshot_witness :
    adC10.creative_bodies.length ≤ 1 ∧
    adC10.creative_bodies =
      (match optChain ((jsOr (rawC10.getProp "snapshot") (Json.obj [])).getProp "body") "text" with
       | some v => if v.truthy then [v] else []
       | none => []) :=
  ⟨(creative_bodies_from_snapshot clk0 0 rawC10 adC10 2 rfl).1,
   (creative_bodies_from_snapshot clk0 0 rawC10 adC10 2 rfl).2.1⟩

/-- A record whose tracked fields carry the types the data model (§3)
prescribes: boolean `is_active`, optional date strings, string
`creative_bodies` entries. -/
def wellTypedRecord (a : AdData) : Bool :=
  (match a.is_active with | Json.bool _ => true | _ => false) &&
  (match a.start_date with | none => true | some (Json.str _) => true | _ => false) &&
  (match a.end_date with | none => true | some (Json.str _) => true | _ => false) &&
  (a.creative_bodies.all (fun c => match c with | Json.str _ => true | _ => false))

/-- Modelled from the spec's words (§4.4): the pair differs on the
tracked mutable fields — `is_active`, `start_date`, `end_date`, or
`creative_bodies` compared as order-sensitive sequences by value. -/
def specTrackedDiffer (prev cand : AdData) : Prop :=
  prev.is_active ≠ cand.is_active ∨ prev.start_date ≠ cand.start_date ∨
  prev.end_date ≠ cand.end_date ∨ prev.creative_bodies ≠ cand.creative_bodies

/-- A value passing the boolean-shape test is a `Json.bool`. -/
theorem boolShape {v : Json}
    (h : (match v with | Json.bool _ => true | _ => false) = true) :
    ∃ b, v = Json.bool b := by
  cases v <;> simp_all

/-- A value passing the optional-date-shape test is absent or a string. -/
theorem dateShape {o : Option Json}
    (h : (match o with | none => true | some (Json.str _) => true | _ => false) = true) :
    o = none ∨ ∃ s, o = some (Json.str s) := by
  rcases o with - | v
  · exact Or.inl rfl
  · cases v <;> simp_all

/-- C5. For records carrying the data model's field types, the
incremental-sync change test fires exactly when a tracked field differs —
`raw_data`, `fetched_at` and `snapshot_url` never influence it — and a
candidate classified unchanged leaves the store and the updated map
untouched (it is not re-persisted). -/
theorem classification_tracked_iff (prev cand : AdData)
    (hp : wellTypedRecord prev = true) (hc : wellTypedRecord cand = true) :
    (isChanged (some prev) cand = true ↔ specTrackedDiffer prev cand) ∧
    (∀ (pageId : String) (st : IncState),
      isChanged (alGet st.store (Json.str pageId, cand.id)) cand = false →
      incHandleAd pageId st cand = st) := by
  constructor
  · simp only [wellTypedRecord, Bool.and_eq_true] at hp hc
    obtain ⟨⟨⟨hp1, hp2⟩, hp3⟩, -⟩ := hp
    obtain ⟨⟨⟨hc1, hc2⟩, hc3⟩, -⟩ := hc
    obtain ⟨b1, hb1⟩ := boolShape hp1
    obtain ⟨b2, hb2⟩ := boolShape hc1
    rcases dateShape hp2 with hs1 | ⟨s1, hs1⟩ <;>
    rcases dateShape hc2 with hs2 | ⟨s2, hs2⟩ <;>
    rcases dateShape hp3 with he1 | ⟨e1, he1⟩ <;>
    rcases dateShape hc3 with he2 | ⟨e2, he2⟩ <;>
      simp [isChanged, specTrackedDiffer, strictEqJ, strictEqO,
        hb1, hb2, hs1, hs2, he1, he2] <;>
      tauto
  · intro pageId st hunch
    unfold incHandleAd
    split
    · simp [hunch]
    · rfl

/-- A candidate identical to `prevAdA` on every tracked field but with a
fresh `fetched_at` and different `raw_data`. -/
def candSameTracked : AdData :=
  { prevAdA with fetched_at := "9", raw_data := Json.obj [("x", Json.null)] }

/-- Witness for C5: a concrete well-typed pair differing only in
untracked fields. -/
theorem classification_tracked_iff_witness :
    wellTypedRecord prevAdA = true ∧ wellTypedRecord candSameTracked = true ∧
    (isChanged (some prevAdA) candSameTracked = true ↔
      specTrackedDiffer prevAdA candSameTracked) :=
  ⟨by decide, by decide,
   (classification_tracked_iff prevAdA candSameTracked (by decide) (by decide)).1⟩

/-- A JS `||` chain ending in a truthy value is truthy. -/
theorem jsOr_truthy (a : Option Json) (b : Json) (hb : b.truthy = true) :
    (jsOr a b).truthy = true := by
  unfold jsOr
  cases a with
  | none => exact hb
  | some v =>
    by_cases hv : v.truthy
    · simp [hv]
    · simp [hv, hb]

/-- Every record `processResult` accepts has truthy `id` and `page_id`. -/
theorem processResult_some_ids (τ : Nat → Nat) (k : Nat) (r : Json) (ad : AdData) (k' : Nat)
    (h : processResult τ k r = (some ad, k')) :
    ad.id.truthy = true ∧ ad.page_id.truthy = true := by
  dsimp only [processResult] at h
  repeat' split at h
  all_goals simp only [Prod.mk.injEq] at h
  all_goals obtain ⟨h1, -⟩ := h
  all_goals simp only [Option.some.injEq, reduceCtorEq] at h1
  all_goals subst h1
  all_goals
    refine ⟨by assumption, jsOr_truthy _ _ (jsOr_truthy _ _ rfl)⟩

/-- Predicate preservation through the collated-results loop. -/
theorem processResults_mem (τ : Nat → Nat) (Q : AdData → Prop)
    (hstep : ∀ (k : Nat) (r : Json) (ad : AdData) (k' : Nat),
      processResult τ k r = (some ad, k') → Q ad) :
    ∀ (rs : List Json) (k : Nat) (acc : List AdData),
      (∀ x ∈ acc, Q x) → ∀ x ∈ (processResults τ k rs acc).1, Q x := by
  intro rs
  induction rs with
  | nil => intro k acc hacc x hx; exact hacc x hx
  | cons r rest ih =>
    intro k acc hacc x hx
    dsimp only [processResults] at hx
    by_cases hr : r.truthy
    · rw [if_pos hr] at hx
      refine ih _ _ ?_ x hx
      intro y hy
      rcases List.mem_append.mp hy with hy | hy
      · exact hacc y hy
      · rw [Option.mem_toList] at hy
        have hpair : processResult τ k r = (some y, (processResult τ k r).2) := by
          rw [← Option.mem_def.mp hy]
        exact hstep k r y _ hpair
    · rw [if_neg hr] at hx
      exact ih _ _ hacc x hx

/-- Predicate preservation through the edges loop. -/
theorem processEdges_mem (τ : Nat → Nat) (Q : AdData → Prop)
    (hstep : ∀ (k : Nat) (r : Json) (ad : AdData) (k' : Nat),
      processResult τ k r = (some ad, k') → Q ad) :
    ∀ (es : List Json) (k : Nat) (acc : List AdData),
      (∀ x ∈ acc, Q x) → ∀ x ∈ (processEdges τ k es acc).1, Q x := by
  intro es
  induction es with
  | nil => intro k acc hacc x hx; exact hacc x hx
  | cons e rest ih =>
    intro k acc hacc x hx
    dsimp only [processEdges] at hx
    by_cases hn : truthyO (optChain (some e) "node")
    · rw [if_pos hn] at hx
      rcases hit : jsIter (jsOr (((optChain (some e) "node").getD Json.null).getProp
          "collated_results") (Json.arr [])) with - | rs
      · rw [hit] at hx
        exact hacc x hx
      · rw [hit] at hx
        exact ih _ _ (processResults_mem τ Q hstep rs k acc hacc) x hx
    · rw [if_neg hn] at hx
      exact ih _ _ hacc x hx

/-- C4. Every record extraction hands over has a truthy (hence, for
strings, non-empty) `id` and `page_id`; in particular no record lacking
both identity fields ever reaches the session map or persistence, which
consume extraction's output unchanged. -/
theorem accepted_ids_truthy (τ : Nat → Nat) (k : Nat) (j : Json) (ad : AdData)
    (h : ad ∈ extractAdData τ k j) :
    ad.id.truthy = true ∧ ad.page_id.truthy = true ∧
    (∀ s, ad.id = Json.str s → s ≠ "") ∧ (∀ s, ad.page_id = Json.str s → s ≠ "") := by
  have hq : ad.id.truthy = true ∧ ad.page_id.truthy = true := by
    unfold extractAdData extractFull at h
    by_cases hd : truthyO (optChain (some j) "data")
    · rw [if_pos hd] at h
      split at h
      · exact processEdges_mem τ _ (fun k r a k' hp => processResult_some_ids τ k r a k' hp)
          _ k [] (by intro y hy; cases hy) ad h
      · cases h
    · rw [if_neg hd] at h
      cases h
  refine ⟨hq.1, hq.2, ?_, ?_⟩
  · intro s hs
    have := hq.1
    rw [hs] at this
    simpa [Json.truthy] using this
  · intro s hs
    have := hq.2
    rw [hs] at this
    simpa [Json.truthy] using this

/-- The record `extractAdData` produces from `payloadGood` under `clk0`. -/
def adGood : AdData :=
  { id := Json.str "A", page_id := Json.str "P", is_active := Json.bool true,
    start_date := none, end_date := none, snapshot_url := none,
    creative_bodies := [], fetched_at := "0",
    raw_data := Json.obj [("ad_archive_id", Json.str "A"), ("page_id", Json.str "P"),
      ("snapshot", Json.obj [])] }

/-- Witness for C4 at a concrete payload. -/
theorem accepted_ids_truthy_witness :
    Json.truthy adGood.id = true ∧ Json.truthy adGood.page_id = true :=
  ⟨(accepted_ids_truthy clk0 0 payloadGood adGood (by decide)).1,
   (accepted_ids_truthy clk0 0 payloadGood adGood (by decide)).2.1⟩

/-- A falsy `||` left side yields the right side. -/
theorem jsOr_falsy (a : Option Json) (b : Json) (h : truthyO a = false) :
    jsOr a b = b := by
  unfold jsOr
  cases a with
  | none => rfl
  | some v => simp_all [truthyO]

/-- C2 counterexample: a payload whose first edge carries a truthy
non-sequence `collated_results` (the number 42) followed by a perfectly
good edge. Alone, the good edge yields one record; preceded by the bad
edge, the `for...of` TypeError is caught at payload level and the good
branch's record is lost — the bad segment did not merely yield "no
results for that branch only". -/
theorem branch_abort_cx :
    extractAdData clk0 0 (anchorPayload [badEdge, goodEdge]) = [] ∧
    (extractAdData clk0 0 payloadGood).length = 1 ∧
    (extractFull clk0 0 (anchorPayload [badEdge, goodEdge])).2.2 = true :=
  ⟨rfl, rfl, rfl⟩

/-- C2 (amended). An edge whose node is absent/null/falsy, or whose
`collated_results` is absent, null or otherwise falsy, contributes no
records, consumes no clock, raises nothing, and leaves every other
branch's records untouched: deleting it from the edge list leaves
extraction's outcome identical. (A truthy non-array `collated_results`
instead aborts the remaining branches of the payload, per the
counterexample.) -/
theorem falsy_branch_local (τ : Nat → Nat) (e : Json) (he : emptyBranch e = true) :
    ∀ (es1 es2 : List Json) (k : Nat) (acc : List AdData),
      processEdges τ k (es1 ++ e :: es2) acc = processEdges τ k (es1 ++ es2) acc := by
  intro es1
  induction es1 with
  | nil =>
    intro es2 k acc
    unfold emptyBranch at he
    dsimp only [List.nil_append]
    dsimp only [processEdges]
    rcases hn : optChain (some e) "node" with - | n
    · simp [truthyO]
    · rw [hn] at he
      by_cases ht : n.truthy
      · have hcr : truthyO (n.getProp "collated_results") = false := by
          simpa [ht] using he
        simp only [truthyO, ht, if_true, Option.getD_some]
        rw [jsOr_falsy _ _ hcr]
        rfl
      · simp [truthyO, ht]
  | cons a es1 ih =>
    intro es2 k acc
    dsimp only [List.cons_append, processEdges]
    by_cases hn : truthyO (optChain (some a) "node")
    · rw [if_pos hn, if_pos hn]
      rcases hit : jsIter (jsOr (((optChain (some a) "node").getD Json.null).getProp
          "collated_results") (Json.arr [])) with - | rs
      · rfl
      · exact ih es2 _ _
    · rw [if_neg hn, if_neg hn]
      exact ih es2 k acc

/-- An edge whose node is explicitly null. -/
def nullNodeEdge : Json := Json.obj [("node", Json.null)]

/-- Witness for the amended C2 at concrete edges. -/
theorem falsy_branch_local_witness :
    processEdges clk0 0 ([goodEdge] ++ nullNodeEdge :: [goodEdge]) [] =
      processEdges clk0 0 ([goodEdge] ++ [goodEdge]) [] :=
  falsy_branch_local clk0 nullNodeEdge rfl [goodEdge] [goodEdge] 0 []

/-- The capture guard applied to one record, without the break: the break
only skips records the guard would refuse anyway, so the loop folds to
this step. -/
def acceptStep (max : Option Nat) (st : CaptureState) (ad : AdData) : CaptureState :=
  if capOpen max st.session.length then
    { session := alSet st.session ad.id ad
      store := alSet st.store (ad.page_id, ad.id) ad }
  else st

/-- Once the session holds at least the (positive) cap, every further
record is refused and the state does not move. -/
theorem acceptStep_skip (n : Nat) (hn : n ≠ 0) :
    ∀ (ads : List AdData) (st : CaptureState), n ≤ st.session.length →
      ads.foldl (acceptStep (some n)) st = st := by
  intro ads
  induction ads with
  | nil => intro st _; rfl
  | cons a rest ih =>
    intro st h
    have hopen : capOpen (some n) st.session.length = false := by
      simp only [capOpen, if_neg hn]
      simpa using Nat.not_lt.mpr h
    rw [List.foldl_cons]
    have hstep : acceptStep (some n) st a = st := by
      unfold acceptStep
      rw [if_neg (by simp [hopen])]
    rw [hstep]
    exact ih st h

/-- The capture loop with its break equals the guarded fold: the break
fires exactly when the cap is reached, after which the guard refuses
every record anyway. -/
theorem captureAds_eq_foldl (max : Option Nat) :
    ∀ (ads : List AdData) (st : CaptureState),
      captureAds max st ads = ads.foldl (acceptStep max) st := by
  intro ads
  induction ads with
  | nil => intro st; rfl
  | cons a rest ih =>
    intro st
    rw [List.foldl_cons]
    by_cases hopen : capOpen max st.session.length = true
    · dsimp only [captureAds, acceptStep]
      rw [if_pos hopen, if_pos hopen]
      by_cases hbr : capBreak max (alSet st.session a.id a).length = true
      · rw [if_pos hbr]
        cases max with
        | none => simp [capBreak] at hbr
        | some n =>
          by_cases hz : n = 0
          · simp [capBreak, hz] at hbr
          · have hle : n ≤ (alSet st.session a.id a).length := by
              simpa [capBreak, hz] using hbr
            exact (acceptStep_skip n hz rest _ hle).symm
      · rw [if_neg hbr]
        exact ih _
    · dsimp only [captureAds, acceptStep]
      rw [if_neg hopen, if_neg hopen]
      exact ih st

/-- Updating an existing key leaves the key list unchanged. -/
theorem alSet_keys_mem {κ : Type} [DecidableEq κ] {α : Type}
    (m : List (κ × α)) (k : κ) (v : α)
    (h : m.any (fun p => p.1 == k) = true) :
    (alSet m k v).map Prod.fst = m.map Prod.fst := by
  unfold alSet
  rw [if_pos h, List.map_map]
  apply List.map_congr_left
  intro p _
  by_cases hp : (p.1 == k) = true
  · simp only [Function.comp_apply, if_pos hp]
    exact (eq_of_beq hp).symm
  · have hne : ¬ p.1 = k := by simpa using hp
    simp [Function.comp_apply, hne]

/-- Inserting a fresh key appends it to the key list. -/
theorem alSet_keys_new {κ : Type} [DecidableEq κ] {α : Type}
    (m : List (κ × α)) (k : κ) (v : α)
    (h : m.any (fun p => p.1 == k) = false) :
    (alSet m k v).map Prod.fst = m.map Prod.fst ++ [k] := by
  unfold alSet
  rw [if_neg (by simp [h])]
  simp

/-- The occupancy test of `alSet` matches key-list membership. -/
theorem any_key_iff {κ : Type} [DecidableEq κ] {α : Type}
    (m : List (κ × α)) (k : κ) :
    m.any (fun p => p.1 == k) = true ↔ k ∈ m.map Prod.fst := by
  simp only [List.any_eq_true, List.mem_map, beq_iff_eq]

/-- Size of the guarded fold: the session grows to the number of distinct
incoming identities, clipped at the (positive) cap. -/
theorem acceptFold_size (n : Nat) (hn : 1 ≤ n) :
    ∀ (ads : List AdData) (st : CaptureState),
      (st.session.map Prod.fst).Nodup → st.session.length ≤ n →
      ((ads.foldl (acceptStep (some n)) st).session.map Prod.fst).Nodup ∧
      (ads.foldl (acceptStep (some n)) st).session.length =
        min n ((st.session.map Prod.fst ++ ads.map AdData.id).toFinset.card) := by
  intro ads
  induction ads with
  | nil =>
    intro st hnd hlen
    refine ⟨hnd, ?_⟩
    rw [List.map_nil, List.append_nil, List.toFinset_card_of_nodup hnd, List.length_map]
    exact (Nat.min_eq_right (by simpa using hlen)).symm
  | cons a rest ih =>
    intro st hnd hlen
    rw [List.foldl_cons]
    by_cases hopen : capOpen (some n) st.session.length = true
    · have hlt : st.session.length < n := by
        have h2 := hopen
        simp only [capOpen] at h2
        rw [if_neg (by omega : ¬ n = 0)] at h2
        simpa using h2
      have hstep : acceptStep (some n) st a =
          ⟨alSet st.session a.id a, alSet st.store (a.page_id, a.id) a⟩ := by
        unfold acceptStep
        rw [if_pos hopen]
      rw [hstep]
      by_cases hmem : st.session.any (fun p => p.1 == a.id) = true
      · -- existing key: keys and length unchanged
        have hkeys := alSet_keys_mem st.session a.id a hmem
        have hlen2 : (alSet st.session a.id a).length = st.session.length := by
          have h3 := congrArg List.length hkeys
          simpa using h3
        have hmem' : a.id ∈ st.session.map Prod.fst := (any_key_iff _ _).mp hmem
        obtain ⟨ihnd, ihlen⟩ := ih ⟨alSet st.session a.id a, alSet st.store (a.page_id, a.id) a⟩
          (by simpa [hkeys] using hnd) (by simpa [hlen2] using hlen)
        refine ⟨ihnd, ?_⟩
        rw [ihlen]
        have hfin : ((alSet st.session a.id a).map Prod.fst ++ rest.map AdData.id).toFinset =
            (st.session.map Prod.fst ++ (a :: rest).map AdData.id).toFinset := by
          rw [hkeys, List.map_cons, List.toFinset_append, List.toFinset_append,
            List.toFinset_cons, Finset.union_insert,
            Finset.insert_eq_self.mpr
              (Finset.mem_union_left _ (List.mem_toFinset.mpr hmem'))]
        rw [hfin]
      · -- fresh key: appended
        have hkeys := alSet_keys_new st.session a.id a (by rwa [Bool.not_eq_true] at hmem)
        have hlen2 : (alSet st.session a.id a).length = st.session.length + 1 := by
          have h3 := congrArg List.length hkeys
          simpa using h3
        have hnotmem : a.id ∉ st.session.map Prod.fst := by
          intro hmm
          exact hmem ((any_key_iff _ _).mpr hmm)
        obtain ⟨ihnd, ihlen⟩ := ih ⟨alSet st.session a.id a, alSet st.store (a.page_id, a.id) a⟩
          (by
            rw [hkeys]
            simp [List.nodup_append, hnd, hnotmem])
          (by
            show (alSet st.session a.id a).length ≤ n
            omega)
        refine ⟨ihnd, ?_⟩
        rw [ihlen, hkeys, List.append_assoc, List.singleton_append, List.map_cons]
    · -- refused: the session already sits at the cap
      have hge : n ≤ st.session.length := by
        by_contra hcon
        have : capOpen (some n) st.session.length = true := by
          simp only [capOpen]
          rw [if_neg (by omega : ¬ n = 0)]
          simpa using Nat.lt_of_not_le (by omega)
        exact hopen this
      have heq : st.session.length = n := le_antisymm hlen hge
      have hstep : acceptStep (some n) st a = st := by
        unfold acceptStep
        rw [if_neg (by simp [hopen])]
      rw [hstep]
      obtain ⟨ihnd, ihlen⟩ := ih st hnd hlen
      refine ⟨ihnd, ?_⟩
      have hcard1 : n ≤ (st.session.map Prod.fst ++ rest.map AdData.id).toFinset.card := by
        calc n = (st.session.map Prod.fst).toFinset.card := by
              rw [List.toFinset_card_of_nodup hnd, List.length_map, heq]
          _ ≤ _ := by
              rw [List.toFinset_append]
              exact Finset.card_le_card Finset.subset_union_left
      have hcard2 : n ≤ (st.session.map Prod.fst ++ (a :: rest).map AdData.id).toFinset.card := by
        calc n = (st.session.map Prod.fst).toFinset.card := by
              rw [List.toFinset_card_of_nodup hnd, List.length_map, heq]
          _ ≤ _ := by
              rw [List.toFinset_append]
              exact Finset.card_le_card Finset.subset_union_left
      rw [ihlen, Nat.min_eq_left hcard1, Nat.min_eq_left hcard2]

/-- A minimal well-formed record with the given id. -/
def simpleAd (i : String) : AdData :=
  { id := Json.str i, page_id := Json.str "P", is_active := Json.bool true,
    start_date := none, end_date := none, snapshot_url := none,
    creative_bodies := [], fetched_at := "0", raw_data := Json.obj [] }

/-- C7 counterexample: a cap of 0 is falsy in JS, so `!max` disables the
limit entirely — `initialSync(url, 0)` accepts everything. Feeding one
distinct identity under cap 0 leaves one record in the session map where
the claim demands exactly zero. -/
theorem cap_zero_not_enforced_cx :
    (initialSyncRun clk0 (some 0) [payloadGood] []).1.session.length = 1 := rfl

/-- C7 (amended). For a positive cap `n`, feeding records whose distinct
identities exceed `n` across the run's responses leaves exactly `n`
records in the session map, and once the session holds `n` records every
further accept attempt is refused — a pure control signal, no error. A
cap of 0 is treated as "no cap" by the falsy-check `!max`. -/
theorem cap_enforced (n : Nat) (hn : 1 ≤ n) (chunks : List (List AdData)) (prior : Store)
    (hdist : n < ((chunks.flatten.map AdData.id).toFinset.card)) :
    (chunks.foldl (captureAds (some n)) ⟨[], prior⟩).session.length = n ∧
    (∀ (st : CaptureState) (more : List AdData), n ≤ st.session.length →
      captureAds (some n) st more = st) := by
  constructor
  · have hfun : captureAds (some n) =
        fun (st : CaptureState) (ads : List AdData) => ads.foldl (acceptStep (some n)) st :=
      funext fun st => funext fun ads => captureAds_eq_foldl (some n) ads st
    have h1 : chunks.foldl (captureAds (some n)) (⟨[], prior⟩ : CaptureState) =
        (chunks.flatten).foldl (acceptStep (some n)) ⟨[], prior⟩ := by
      rw [hfun, ← List.foldl_flatten]
    rw [h1]
    obtain ⟨-, hlen⟩ := acceptFold_size n hn chunks.flatten ⟨[], prior⟩ (by simp) (by simp)
    rw [hlen]
    simp only [List.map_nil, List.nil_append]
    exact Nat.min_eq_left (le_of_lt hdist)
  · intro st more hle
    rw [captureAds_eq_foldl]
    exact acceptStep_skip n (by omega) more st hle

/-- Witness for the amended C7: cap 2, three distinct identities across
two responses, final session size exactly 2. -/
theorem cap_enforced_witness :
    ([[simpleAd "A", simpleAd "B"], [simpleAd "C"]].foldl (captureAds (some 2))
      (⟨[], []⟩ : CaptureState)).session.length = 2 :=
  (cap_enforced 2 (by decide) [[simpleAd "A", simpleAd "B"], [simpleAd "C"]] []
    (by decide)).1

/-- `List.find?` on a cons whose head satisfies the predicate, with the
predicate explicit (avoids higher-order unification guesses). -/
theorem find?_cons_pos {α : Type} (p : α → Bool) (a : α) (l : List α) (h : p a = true) :
    List.find? p (a :: l) = some a := List.find?_cons_of_pos l h

/-- `List.find?` on a cons whose head fails the predicate. -/
theorem find?_cons_neg {α : Type} (p : α → Bool) (a : α) (l : List α) (h : p a = false) :
    List.find? p (a :: l) = List.find? p l := List.find?_cons_of_neg l (by simp [h])

/-- Lookup after a replace-in-place update, at a different key. -/
theorem alGet_replace_ne {κ : Type} [DecidableEq κ] {α : Type}
    (t : List (κ × α)) (k key : κ) (v : α) (h : key ≠ k) :
    alGet (t.map (fun q => if q.1 == k then (k, v) else q)) key = alGet t key := by
  induction t with
  | nil => rfl
  | cons q t ih =>
    rw [List.map_cons]
    by_cases hq : (q.1 == k) = true
    · have hqk : q.1 = k := eq_of_beq hq
      rw [if_pos hq]
      unfold alGet
      rw [find?_cons_neg (fun p => p.1 == key) (k, v) _ (by simpa using Ne.symm h),
        find?_cons_neg (fun p => p.1 == key) q _
          (by show (q.1 == key) = false; rw [hqk]; simpa using Ne.symm h)]
      exact ih
    · rw [if_neg hq]
      by_cases hqq : (q.1 == key) = true
      · unfold alGet
        rw [find?_cons_pos (fun p => p.1 == key) q _ hqq,
          find?_cons_pos (fun p => p.1 == key) q _ hqq]
      · unfold alGet
        rw [find?_cons_neg (fun p => p.1 == key) q _ (by simpa using hqq),
          find?_cons_neg (fun p => p.1 == key) q _ (by simpa using hqq)]
        exact ih

/-- Lookup after a replace-in-place update, at the updated (present) key. -/
theorem alGet_replace_self {κ : Type} [DecidableEq κ] {α : Type}
    (t : List (κ × α)) (k : κ) (v : α) (h : t.any (fun p => p.1 == k) = true) :
    alGet (t.map (fun q => if q.1 == k then (k, v) else q)) k = some v := by
  induction t with
  | nil => simp at h
  | cons q t ih =>
    rw [List.map_cons]
    by_cases hq : (q.1 == k) = true
    · rw [if_pos hq]
      unfold alGet
      rw [find?_cons_pos (fun p => p.1 == k) (k, v) _ (by simp)]
      rfl
    · rw [if_neg hq]
      unfold alGet
      rw [find?_cons_neg (fun p => p.1 == k) q _ (by simpa using hq)]
      apply ih
      simpa [hq] using h

/-- Lookup after appending a fresh key. -/
theorem alGet_append_fresh {κ : Type} [DecidableEq κ] {α : Type}
    (t : List (κ × α)) (k key : κ) (v : α) (h : t.any (fun p => p.1 == k) = false) :
    alGet (t ++ [(k, v)]) key = if key = k then some v else alGet t key := by
  induction t with
  | nil =>
    by_cases hk : key = k
    · subst hk
      simp [alGet]
    · rw [if_neg hk]
      unfold alGet
      rw [List.nil_append,
        find?_cons_neg (fun p => p.1 == key) (k, v) _ (by simpa using Ne.symm hk)]
  | cons q t ih =>
    simp only [List.any_cons, Bool.or_eq_false_iff] at h
    obtain ⟨hq, ht⟩ := h
    rw [List.cons_append]
    by_cases hqq : (q.1 == key) = true
    · have hk : ¬ key = k := by
        intro hkk
        subst hkk
        exact absurd hqq (by simpa using hq)
      rw [if_neg hk]
      unfold alGet
      rw [find?_cons_pos (fun p => p.1 == key) q _ hqq,
        find?_cons_pos (fun p => p.1 == key) q _ hqq]
    · have hrec := ih ht
      unfold alGet at hrec ⊢
      rw [find?_cons_neg (fun p => p.1 == key) q _ (by simpa using hqq),
        find?_cons_neg (fun p => p.1 == key) q _ (by simpa using hqq)]
      exact hrec

/-- Lookup after `alSet`: the updated key maps to the new value, every
other key is untouched. -/
theorem alGet_alSet {κ : Type} [DecidableEq κ] {α : Type}
    (m : List (κ × α)) (k : κ) (v : α) (key : κ) :
    alGet (alSet m k v) key = if key = k then some v else alGet m key := by
  unfold alSet
  by_cases hmem : m.any (fun p => p.1 == k) = true
  · rw [if_pos hmem]
    by_cases hk : key = k
    · subst hk
      rw [if_pos rfl]
      exact alGet_replace_self m key v hmem
    · rw [if_neg hk]
      exact alGet_replace_ne m k key v hk
  · rw [if_neg hmem]
    exact alGet_append_fresh m k key v (by rwa [Bool.not_eq_true] at hmem)

/-- `getLast?` of a cons, phrased as a fallback match. -/
theorem getLast?_cons_eq {α : Type} (a : α) (l : List α) :
    (a :: l).getLast? = (match l.getLast? with | none => some a | some b => some b) := by
  cases l with
  | nil => rfl
  | cons b t =>
    rw [List.getLast?_cons_cons]
    cases hlt : (b :: t).getLast? with
    | none => exact absurd hlt (by simp)
    | some x => rfl

/-- The records the capture loop actually accepts (those that pass the
guard), in arrival order — instrumentation mirroring `captureAds`'s
control flow, including the break. -/
def acceptedList (max : Option Nat) : CaptureState → List AdData → List AdData
  | _, [] => []
  | st, ad :: rest =>
    if capOpen max st.session.length then
      let st' : CaptureState :=
        { session := alSet st.session ad.id ad
          store := alSet st.store (ad.page_id, ad.id) ad }
      if capBreak max st'.session.length then [ad]
      else ad :: acceptedList max st' rest
    else acceptedList max st rest

/-- `List.filter` on a cons whose head passes, predicate explicit. -/
theorem filter_cons_pos {α : Type} (p : α → Bool) (a : α) (l : List α) (h : p a = true) :
    List.filter p (a :: l) = a :: List.filter p l := by
  rw [List.filter_cons, if_pos h]

/-- `List.filter` on a cons whose head fails, predicate explicit. -/
theorem filter_cons_neg {α : Type} (p : α → Bool) (a : α) (l : List α) (h : p a = false) :
    List.filter p (a :: l) = List.filter p l := by
  rw [List.filter_cons, if_neg (by simp [h])]

/-- C8 (amended). After a full-capture loop, the session content at every
key is the last ACCEPTED record carrying that key — each accepted record
overwrites its predecessor — and the prior content where no record with
that key was accepted. (A record refused by the cap does not overwrite,
so the last record merely SEEN need not be the final content; see the
counterexample.) -/
theorem session_last_accepted (max : Option Nat) :
    ∀ (ads : List AdData) (st : CaptureState) (key : Json),
      alGet (captureAds max st ads).session key =
        (match ((acceptedList max st ads).filter (fun a => a.id == key)).getLast? with
         | some a => some a
         | none => alGet st.session key) := by
  intro ads
  induction ads with
  | nil => intro st key; rfl
  | cons a rest ih =>
    intro st key
    dsimp only [captureAds, acceptedList]
    by_cases hopen : capOpen max st.session.length = true
    · rw [if_pos hopen, if_pos hopen]
      by_cases hbr : capBreak max (alSet st.session a.id a).length = true
      · rw [if_pos hbr, if_pos hbr]
        by_cases hak : (a.id == key) = true
        · have hake : a.id = key := eq_of_beq hak
          rw [filter_cons_pos (fun x => x.id == key) a _ hak]
          simp only [List.filter_nil, List.getLast?_singleton]
          rw [alGet_alSet]
          rw [if_pos hake.symm]
        · rw [filter_cons_neg (fun x => x.id == key) a _ (by simpa using hak)]
          simp only [List.filter_nil, List.getLast?_nil]
          rw [alGet_alSet]
          rw [if_neg (by intro hc; exact hak (by simp [hc]))]
      · rw [if_neg hbr, if_neg hbr]
        rw [ih]
        by_cases hak : (a.id == key) = true
        · have hake : a.id = key := eq_of_beq hak
          rw [filter_cons_pos (fun x => x.id == key) a _ hak, getLast?_cons_eq]
          cases hlt : ((acceptedList max
              ⟨alSet st.session a.id a, alSet st.store (a.page_id, a.id) a⟩ rest).filter
                (fun x => x.id == key)).getLast? with
          | none =>
            rw [alGet_alSet, if_pos hake.symm]
          | some b => rfl
        · rw [filter_cons_neg (fun x => x.id == key) a _ (by simpa using hak)]
          cases hlt : ((acceptedList max
              ⟨alSet st.session a.id a, alSet st.store (a.page_id, a.id) a⟩ rest).filter
                (fun x => x.id == key)).getLast? with
          | none =>
            rw [alGet_alSet, if_neg (by intro hc; exact hak (by simp [hc]))]
          | some b => rfl
    · rw [if_neg hopen, if_neg hopen]
      exact ih st key

/-- `simpleAd "A"` with its activity flag flipped: same identity,
different content. -/
def simpleAdOff : AdData := { simpleAd "A" with is_active := Json.bool false }

/-- C8 counterexample: with cap 1, the first "A" record is accepted and
the break fires; the second "A" record — the last one seen — is refused,
so the final session content for key "A" is the FIRST record, not the
last seen. -/
theorem cap_blocks_overwrite_cx :
    alGet (captureAds (some 1) ⟨[], []⟩ [simpleAd "A", simpleAdOff]).session
        (Json.str "A") = some (simpleAd "A") ∧
    simpleAd "A" ≠ simpleAdOff :=
  ⟨rfl, by decide⟩

/-- Whether a string carries the synthesized-identity prefix
`unknown_`. -/
def synthPrefixed (s : String) : Bool := s.data.take 8 == "unknown_".data

/-- Every string of the shape `unknown_<t>` is synth-prefixed. -/
theorem synthPrefixed_append (t : String) : synthPrefixed ("unknown_" ++ t) = true := by
  unfold synthPrefixed
  rw [String.data_append, List.take_left' (by rfl)]
  simp

/-- The identity value the fallback chain of line 87 derives from the raw
object's own fields — `none` when the synthesized fallback would fire. -/
def chosenId (r : Json) : Option Json :=
  if truthyO (r.getProp "ad_archive_id") then r.getProp "ad_archive_id"
  else if truthyO (r.getProp "id") then r.getProp "id"
  else none

/-- A collated result whose processing cannot interact with the clock's
values: either it is skipped (falsy), or its identity derives from its
own fields and does not spoof the `unknown_` synthesized format. -/
def resultSafe (r : Json) : Bool :=
  !r.truthy ||
  (match chosenId r with
   | some (Json.str s) => !(synthPrefixed s)
   | some _ => true
   | none => false)

/-- An edge all of whose collated results are `resultSafe` (a
non-iterable `collated_results` aborts identically under any clock, so it
is safe as well). -/
def edgeSafe (e : Json) : Bool :=
  match optChain (some e) "node" with
  | none => true
  | some n =>
    if n.truthy then
      match jsIter (jsOr (n.getProp "collated_results") (Json.arr [])) with
      | some rs => rs.all resultSafe
      | none => true
    else true

/-- A payload all of whose reachable collated results are `resultSafe`. -/
def payloadSafe (j : Json) : Bool :=
  match edgesOf j with
  | some (Json.arr es) => es.all edgeSafe
  | _ => true

/-- A record with its capture timestamp blanked. -/
def eraseTs (ad : AdData) : AdData := { ad with fetched_at := "" }

/-- A session map with all timestamps blanked. -/
def eraseSess (m : List (Json × AdData)) : List (Json × AdData) :=
  m.map (fun p => (p.1, eraseTs p.2))

/-- A store with all timestamps blanked. -/
def eraseStore (s : Store) : Store := s.map (fun p => (p.1, eraseTs p.2))

/-- Page metadata with its sync timestamp blanked. -/
def eraseMeta (m : PageMetadata) : PageMetadata := { m with last_synced := "" }

/-- C9 counterexample: the same payload and prior state handled one
millisecond apart produce different extracted records (their `fetched_at`
stamps differ), so the engine's output is not a function of the payload
sequence and prior persisted state alone. -/
theorem timing_dependence_cx :
    extractAdData clk0 0 payloadGood ≠ extractAdData clk1 0 payloadGood ∧
    (initialSyncRun clk0 none [payloadGood] []).1.session ≠
      (initialSyncRun clk1 none [payloadGood] []).1.session := by
  constructor
  · decide
  · decide

/-- A value that is not synth-prefixed differs from every
`unknown_<t>` string. -/
theorem not_synth_ne (v : Json)
    (hv : (match v with
           | Json.str s => !(synthPrefixed s)
           | _ => true) = true) (t : String) :
    v ≠ Json.str ("unknown_" ++ t) := by
  intro hvv
  subst hvv
  simp [synthPrefixed_append] at hv

/-- Under a safe, truthy collated result, processing is independent of
the clock except for the `fetched_at` stamp: same acceptance decision,
same final counter, records equal after blanking the timestamp. -/
theorem processResult_clock (τ1 τ2 : Nat → Nat) (r : Json)
    (hs : resultSafe r = true) (hr : r.truthy = true) (k : Nat) :
    (processResult τ1 k r).2 = k + 2 ∧ (processResult τ2 k r).2 = k + 2 ∧
    Option.map eraseTs (processResult τ1 k r).1 =
      Option.map eraseTs (processResult τ2 k r).1 := by
  have hs2 : (match chosenId r with
      | some (Json.str s) => !(synthPrefixed s)
      | some _ => true
      | none => false) = true := by
    unfold resultSafe at hs
    rw [hr] at hs
    simpa using hs
  cases hc : chosenId r with
  | none => rw [hc] at hs2; simp at hs2
  | some v =>
    rw [hc] at hs2
    have hcases : (truthyO (r.getProp "ad_archive_id") = true ∧
          r.getProp "ad_archive_id" = some v) ∨
        (truthyO (r.getProp "ad_archive_id") = false ∧
          truthyO (r.getProp "id") = true ∧ r.getProp "id" = some v) := by
      unfold chosenId at hc
      by_cases h1 : truthyO (r.getProp "ad_archive_id") = true
      · rw [if_pos h1] at hc
        exact Or.inl ⟨h1, hc⟩
      · rw [if_neg h1] at hc
        by_cases h2 : truthyO (r.getProp "id") = true
        · rw [if_pos h2] at hc
          exact Or.inr ⟨by simpa using h1, h2, hc⟩
        · rw [if_neg h2] at hc
          cases hc
    have hvt : v.truthy = true := by
      rcases hcases with ⟨h1, hgp⟩ | ⟨-, h2, hgp⟩
      · rw [hgp] at h1
        simpa [truthyO] using h1
      · rw [hgp] at h2
        simpa [truthyO] using h2
    have hne : ∀ t : String, v ≠ Json.str ("unknown_" ++ t) := by
      intro t
      apply not_synth_ne v
      cases v <;> simp_all
    have hobt : ∀ τ : Nat → Nat, processResult τ k r =
        (some ({ id := v,
                 page_id := jsOr (r.getProp "page_id")
                   (jsOr ((jsOr (r.getProp "snapshot") (Json.obj [])).getProp "page_id")
                     (Json.str "unknown_page")),
                 is_active := (r.getProp "is_active").getD (Json.bool true),
                 start_date := jsOrO (r.getProp "start_date")
                   (r.getProp "delivery_start_time"),
                 end_date := jsOrO (r.getProp "end_date") (r.getProp "delivery_stop_time"),
                 snapshot_url := r.getProp "snapshot_url",
                 creative_bodies :=
                   if truthyO (optChain ((jsOr (r.getProp "snapshot")
                       (Json.obj [])).getProp "body") "text") then
                     [(optChain ((jsOr (r.getProp "snapshot") (Json.obj [])).getProp
                       "body") "text").getD Json.null]
                   else [],
                 fetched_at := isoOf (τ k),
                 raw_data := Json.obj (setKey (jsSpread r) "snapshot"
                   (jsOr (r.getProp "snapshot") (Json.obj []))) } : AdData), k + 2) := by
      intro τ
      have hpair : (if truthyO (r.getProp "ad_archive_id") = true
            then (((r.getProp "ad_archive_id").getD Json.null), k)
            else if truthyO (r.getProp "id") = true
              then (((r.getProp "id").getD Json.null), k)
              else (Json.str ("unknown_" ++ toString (τ k)), k + 1)) = (v, k) := by
        rcases hcases with ⟨h1, hgp⟩ | ⟨h1, h2, hgp⟩
        · rw [if_pos h1, hgp]
          rfl
        · rw [if_neg (by simp [h1]), if_pos h2, hgp]
          rfl
      dsimp only [processResult]
      rw [hpair]
      dsimp only
      rw [if_pos hvt, if_neg (hne (toString (τ (k + 1))))]
    refine ⟨?_, ?_, ?_⟩
    · rw [hobt τ1]
    · rw [hobt τ2]
    · rw [hobt τ1, hobt τ2]
      simp [eraseTs]

/-- Mapping a function over `Option.toList` respects `Option.map`
equality. -/
theorem map_toList_of_map_eq {α β : Type} (f : α → β) (o1 o2 : Option α)
    (h : o1.map f = o2.map f) : o1.toList.map f = o2.toList.map f := by
  cases o1 <;> cases o2 <;> simp_all

/-- Clock-independence through the collated-results loop. -/
theorem processResults_clock (τ1 τ2 : Nat → Nat) :
    ∀ (rs : List Json), rs.all resultSafe = true →
      ∀ (k : Nat) (acc1 acc2 : List AdData), acc1.map eraseTs = acc2.map eraseTs →
        (processResults τ1 k rs acc1).1.map eraseTs =
          (processResults τ2 k rs acc2).1.map eraseTs ∧
        (processResults τ1 k rs acc1).2 = (processResults τ2 k rs acc2).2 := by
  intro rs
  induction rs with
  | nil => intro _ k acc1 acc2 hacc; exact ⟨hacc, rfl⟩
  | cons r rest ih =>
    intro hall k acc1 acc2 hacc
    simp only [List.all_cons, Bool.and_eq_true] at hall
    obtain ⟨hr, hrest⟩ := hall
    dsimp only [processResults]
    by_cases ht : r.truthy = true
    · rw [if_pos ht, if_pos ht]
      obtain ⟨hk1, hk2, hmap⟩ := processResult_clock τ1 τ2 r hr ht k
      rw [hk1, hk2]
      apply ih hrest
      rw [List.map_append, List.map_append, hacc]
      rw [map_toList_of_map_eq eraseTs _ _ hmap]
    · rw [if_neg ht, if_neg ht]
      exact ih hrest k acc1 acc2 hacc

/-- Clock-independence through the edges loop. -/
theorem processEdges_clock (τ1 τ2 : Nat → Nat) :
    ∀ (es : List Json), es.all edgeSafe = true →
      ∀ (k : Nat) (acc1 acc2 : List AdData), acc1.map eraseTs = acc2.map eraseTs →
        (processEdges τ1 k es acc1).1.map eraseTs =
          (processEdges τ2 k es acc2).1.map eraseTs ∧
        (processEdges τ1 k es acc1).2.1 = (processEdges τ2 k es acc2).2.1 ∧
        (processEdges τ1 k es acc1).2.2 = (processEdges τ2 k es acc2).2.2 := by
  intro es
  induction es with
  | nil => intro _ k acc1 acc2 hacc; exact ⟨hacc, rfl, rfl⟩
  | cons e rest ih =>
    intro hall k acc1 acc2 hacc
    simp only [List.all_cons, Bool.and_eq_true] at hall
    obtain ⟨he, hrest⟩ := hall
    dsimp only [processEdges]
    by_cases hn : truthyO (optChain (some e) "node") = true
    · rw [if_pos hn, if_pos hn]
      unfold edgeSafe at he
      rcases hno : optChain (some e) "node" with - | n
      · rw [hno] at hn
        simp [truthyO] at hn
      · rw [hno] at hn he
        have hnt : n.truthy = true := by simpa [truthyO] using hn
        have he2 : (match jsIter (jsOr (n.getProp "collated_results") (Json.arr [])) with
            | some rs => rs.all resultSafe
            | none => true) = true := by
          have h3 : (if n.truthy = true then
              (match jsIter (jsOr (n.getProp "collated_results") (Json.arr [])) with
               | some rs => rs.all resultSafe
               | none => true) else true) = true := he
          rwa [if_pos hnt] at h3
        simp only [Option.getD_some]
        rcases hit : jsIter (jsOr (n.getProp "collated_results") (Json.arr [])) with - | rs
        · rw [hit] at he2
          exact ⟨hacc, rfl, rfl⟩
        · rw [hit] at he2
          obtain ⟨hm, hk⟩ := processResults_clock τ1 τ2 rs he2 k acc1 acc2 hacc
          dsimp only
          rw [hk]
          exact ih hrest _ _ _ hm
    · rw [if_neg hn, if_neg hn]
      exact ih hrest k acc1 acc2 hacc

/-- Clock-independence of `extractAdData` on safe payloads: the record
lists agree after blanking `fetched_at`, and the final counter and
caught-exception flag agree exactly. -/
theorem extractFull_clock (τ1 τ2 : Nat → Nat) (j : Json) (hj : payloadSafe j = true)
    (k : Nat) :
    (extractFull τ1 k j).1.map eraseTs = (extractFull τ2 k j).1.map eraseTs ∧
    (extractFull τ1 k j).2.1 = (extractFull τ2 k j).2.1 ∧
    (extractFull τ1 k j).2.2 = (extractFull τ2 k j).2.2 := by
  unfold payloadSafe at hj
  unfold extractFull
  by_cases hd : truthyO (optChain (some j) "data") = true
  · rw [if_pos hd, if_pos hd]
    rcases he : optChain (optChain (optChain (optChain (some j) "data") "ad_library_main")
        "search_results_connection") "edges" with - | v
    · exact ⟨rfl, rfl, rfl⟩
    · cases v with
      | arr es =>
        have hes : es.all edgeSafe = true := by
          unfold edgesOf at hj
          rw [he] at hj
          exact hj
        exact processEdges_clock τ1 τ2 es hes k [] [] rfl
      | null => exact ⟨rfl, rfl, rfl⟩
      | bool b => exact ⟨rfl, rfl, rfl⟩
      | num n => exact ⟨rfl, rfl, rfl⟩
      | str s => exact ⟨rfl, rfl, rfl⟩
      | obj fs => exact ⟨rfl, rfl, rfl⟩
  · rw [if_neg hd, if_neg hd]
    exact ⟨rfl, rfl, rfl⟩

/-- `alSet` commutes with mapping a function over stored values. -/
theorem alSet_map_value {κ : Type} [DecidableEq κ] {α β : Type} (f : α → β)
    (m : List (κ × α)) (key : κ) (v : α) :
    (alSet m key v).map (fun p => (p.1, f p.2)) =
      alSet (m.map (fun p => (p.1, f p.2))) key (f v) := by
  unfold alSet
  have hany : (m.map (fun p => (p.1, f p.2))).any (fun p => p.1 == key) =
      m.any (fun p => p.1 == key) := by
    induction m with
    | nil => rfl
    | cons q t iha => simp [List.any_cons, iha]
  rw [hany]
  by_cases hmem : m.any (fun p => p.1 == key) = true
  · rw [if_pos hmem, if_pos hmem, List.map_map, List.map_map]
    apply List.map_congr_left
    intro p _
    by_cases hp : (p.1 == key) = true
    · have he := eq_of_beq hp
      simp [he]
    · have hne : ¬ p.1 = key := by simpa using hp
      simp [hne]
  · rw [if_neg hmem, if_neg hmem]
    simp

/-- Cross-clock congruence of the capture loop: erased-equal inputs give
erased-equal session and store. -/
theorem captureAds_clock (max : Option Nat) :
    ∀ (ads1 ads2 : List AdData) (st1 st2 : CaptureState),
      ads1.map eraseTs = ads2.map eraseTs →
      eraseSess st1.session = eraseSess st2.session →
      eraseStore st1.store = eraseStore st2.store →
      eraseSess (captureAds max st1 ads1).session =
        eraseSess (captureAds max st2 ads2).session ∧
      eraseStore (captureAds max st1 ads1).store =
        eraseStore (captureAds max st2 ads2).store := by
  intro ads1
  induction ads1 with
  | nil =>
    intro ads2 st1 st2 hads hsess hstore
    cases ads2 with
    | nil => exact ⟨hsess, hstore⟩
    | cons _ _ => simp at hads
  | cons a1 rest1 ih =>
    intro ads2 st1 st2 hads hsess hstore
    cases ads2 with
    | nil => simp at hads
    | cons a2 rest2 =>
      simp only [List.map_cons, List.cons.injEq] at hads
      obtain ⟨ha, hrest⟩ := hads
      have hid : a1.id = a2.id := by
        have h3 := congrArg AdData.id ha
        simpa [eraseTs] using h3
      have hpid : a1.page_id = a2.page_id := by
        have h3 := congrArg AdData.page_id ha
        simpa [eraseTs] using h3
      have hlen : st1.session.length = st2.session.length := by
        have h3 := congrArg List.length hsess
        simpa [eraseSess] using h3
      have hsess' : eraseSess (alSet st1.session a1.id a1) =
          eraseSess (alSet st2.session a2.id a2) := by
        unfold eraseSess at hsess ⊢
        rw [alSet_map_value eraseTs, alSet_map_value eraseTs, hid, ha, hsess]
      have hstore' : eraseStore (alSet st1.store (a1.page_id, a1.id) a1) =
          eraseStore (alSet st2.store (a2.page_id, a2.id) a2) := by
        unfold eraseStore at hstore ⊢
        rw [alSet_map_value eraseTs, alSet_map_value eraseTs, hid, hpid, ha, hstore]
      have hlen' : (alSet st1.session a1.id a1).length =
          (alSet st2.session a2.id a2).length := by
        have h3 := congrArg List.length hsess'
        simpa [eraseSess] using h3
      dsimp only [captureAds]
      by_cases hopen : capOpen max st1.session.length = true
      · have hopen2 : capOpen max st2.session.length = true := by
          rw [← hlen]; exact hopen
        rw [if_pos hopen, if_pos hopen2]
        by_cases hbr : capBreak max (alSet st1.session a1.id a1).length = true
        · have hbr2 : capBreak max (alSet st2.session a2.id a2).length = true := by
            rw [← hlen']; exact hbr
          rw [if_pos hbr, if_pos hbr2]
          exact ⟨hsess', hstore'⟩
        · have hbr2 : ¬ capBreak max (alSet st2.session a2.id a2).length = true := by
            rw [← hlen']; exact hbr
          rw [if_neg hbr, if_neg hbr2]
          exact ih rest2 _ _ hrest hsess' hstore'
      · have hopen2 : ¬ capOpen max st2.session.length = true := by
          rw [← hlen]; exact hopen
        rw [if_neg hopen, if_neg hopen2]
        exact ih rest2 st1 st2 hrest hsess hstore

/-- Cross-clock congruence of the full-capture fold over payloads. -/
theorem runFold_clock (τ1 τ2 : Nat → Nat) (max : Option Nat) :
    ∀ (payloads : List Json), payloads.all payloadSafe = true →
      ∀ (st1 st2 : RunState),
        eraseSess st1.session = eraseSess st2.session →
        eraseStore st1.store = eraseStore st2.store →
        st1.k = st2.k →
        eraseSess (payloads.foldl (handleResponse τ1 max) st1).session =
          eraseSess (payloads.foldl (handleResponse τ2 max) st2).session ∧
        eraseStore (payloads.foldl (handleResponse τ1 max) st1).store =
          eraseStore (payloads.foldl (handleResponse τ2 max) st2).store ∧
        (payloads.foldl (handleResponse τ1 max) st1).k =
          (payloads.foldl (handleResponse τ2 max) st2).k := by
  intro payloads
  induction payloads with
  | nil => intro _ st1 st2 h1 h2 h3; exact ⟨h1, h2, h3⟩
  | cons p rest ih =>
    intro hall st1 st2 h1 h2 h3
    simp only [List.all_cons, Bool.and_eq_true] at hall
    obtain ⟨hp, hrest⟩ := hall
    rw [List.foldl_cons, List.foldl_cons]
    obtain ⟨hm, hk, -⟩ := extractFull_clock τ1 τ2 p hp st1.k
    have hk21 : extractFull τ2 st2.k p = extractFull τ2 st1.k p := by rw [h3]
    have hm' : (extractFull τ1 st1.k p).1.map eraseTs =
        (extractFull τ2 st2.k p).1.map eraseTs := by
      rw [hk21]; exact hm
    have hcap := captureAds_clock max (extractFull τ1 st1.k p).1 (extractFull τ2 st2.k p).1
      ⟨st1.session, st1.store⟩ ⟨st2.session, st2.store⟩ hm' h1 h2
    refine ih hrest _ _ ?_ ?_ ?_
    · exact hcap.1
    · exact hcap.2
    · show (extractFull τ1 st1.k p).2.1 = (extractFull τ2 st2.k p).2.1
      rw [hk21]
      exact hk

/-- Cross-clock congruence of the per-page metadata loop. -/
theorem pageMetas_clock (τ1 τ2 : Nat → Nat) :
    ∀ (pids : List Json) (k1 k2 : Nat) (vals1 vals2 : List AdData),
      vals1.map AdData.page_id = vals2.map AdData.page_id →
      (pageMetasGo τ1 vals1 k1 pids).map eraseMeta =
        (pageMetasGo τ2 vals2 k2 pids).map eraseMeta := by
  intro pids
  induction pids with
  | nil => intro _ _ _ _ _; rfl
  | cons pid rest ih =>
    intro k1 k2 vals1 vals2 hpg
    dsimp only [pageMetasGo]
    rw [List.map_cons, List.map_cons]
    have hcount : (vals1.filter (fun ad => ad.page_id == pid)).length =
        (vals2.filter (fun ad => ad.page_id == pid)).length := by
      rw [← List.countP_eq_length_filter, ← List.countP_eq_length_filter]
      have e1 : List.countP (fun ad => ad.page_id == pid) vals1 =
          List.countP (fun q => q == pid) (vals1.map AdData.page_id) := by
        rw [List.countP_map]
        rfl
      have e2 : List.countP (fun ad => ad.page_id == pid) vals2 =
          List.countP (fun q => q == pid) (vals2.map AdData.page_id) := by
        rw [List.countP_map]
        rfl
      rw [e1, e2, hpg]
    rw [ih (k1 + 1) (k2 + 1) vals1 vals2 hpg]
    simp [eraseMeta, hcount]

/-- Values of an erased session are the erased values. -/
theorem eraseSess_values (m : List (Json × AdData)) :
    (eraseSess m).map Prod.snd = (m.map Prod.snd).map eraseTs := by
  unfold eraseSess
  rw [List.map_map, List.map_map]
  rfl

/-- Erased-equal record lists have identical `page_id` sequences. -/
theorem map_page_id_of_erase_eq (l1 l2 : List AdData)
    (h : l1.map eraseTs = l2.map eraseTs) :
    l1.map AdData.page_id = l2.map AdData.page_id := by
  have h1 : l1.map AdData.page_id = (l1.map eraseTs).map AdData.page_id := by
    rw [List.map_map]
    rfl
  have h2 : l2.map AdData.page_id = (l2.map eraseTs).map AdData.page_id := by
    rw [List.map_map]
    rfl
  rw [h1, h2, h]

/-- C9 (amended). The engine's output is a deterministic function of the
payload sequence, the prior persisted state AND the clock readings:
under the same payloads and prior state, runs with different clocks agree
on the extracted records, the session content, the persisted store and
the page metadata up to the timestamp-derived fields (`fetched_at`,
`last_synced`), provided every truthy collated result derives its
identity from its own fields and does not spoof the synthesized
`unknown_` format. The timestamps themselves depend on timing, which
refutes strict timing-independence (see the counterexample). -/
theorem run_deterministic_mod_timestamps (τ1 τ2 : Nat → Nat) (max : Option Nat)
    (payloads : List Json) (prior : Store) (h : payloads.all payloadSafe = true) :
    (∀ (k : Nat) (j : Json), payloadSafe j = true →
        (extractAdData τ1 k j).map eraseTs = (extractAdData τ2 k j).map eraseTs) ∧
    eraseSess (initialSyncRun τ1 max payloads prior).1.session =
      eraseSess (initialSyncRun τ2 max payloads prior).1.session ∧
    eraseStore (initialSyncRun τ1 max payloads prior).1.store =
      eraseStore (initialSyncRun τ2 max payloads prior).1.store ∧
    (initialSyncRun τ1 max payloads prior).2.map eraseMeta =
      (initialSyncRun τ2 max payloads prior).2.map eraseMeta := by
  obtain ⟨hsess, hstore, hk⟩ := runFold_clock τ1 τ2 max payloads h
    ⟨[], prior, 0⟩ ⟨[], prior, 0⟩ rfl rfl rfl
  refine ⟨?_, hsess, hstore, ?_⟩
  · intro k j hj
    exact (extractFull_clock τ1 τ2 j hj k).1
  · dsimp only [initialSyncRun]
    have hvals : ((payloads.foldl (handleResponse τ1 max)
          (⟨[], prior, 0⟩ : RunState)).session.map Prod.snd).map eraseTs =
        ((payloads.foldl (handleResponse τ2 max)
          (⟨[], prior, 0⟩ : RunState)).session.map Prod.snd).map eraseTs := by
      rw [← eraseSess_values, ← eraseSess_values, hsess]
    have hpg := map_page_id_of_erase_eq _ _ hvals
    rw [hpg]
    exact pageMetas_clock τ1 τ2 _ _ _ _ _ hpg

/-- Witness for the amended C9: a safe payload handled under two
different clocks yields erased-equal sessions. -/
theorem run_deterministic_mod_timestamps_witness :
    eraseSess (initialSyncRun clk0 none [payloadGood] []).1.session =
      eraseSess (initialSyncRun clk1 none [payloadGood] []).1.session :=
  (run_deterministic_mod_timestamps clk0 clk1 none [payloadGood] [] (by decide)).2.1
